import Mathlib

/-!
Shallow embedding of `src/dataset.py` (mask generation and batch collation
for a time-series imputation dataset).

Modelling conventions:
- Randomness is an explicit stream `u : ℕ → ℚ` of draws, each thought of as a
  uniform sample in the interval from 0 to 1; a function that consumes draws
  takes the stream together with the index `start` of its first unused draw.
  Consecutive numpy calls consume consecutive draws.
- Python floats are modelled as rationals; integer tensors as unbounded
  integers, except the lengths tensor the collator builds with dtype int16:
  its silent mod-2^16 truncation, and that of the positions cast to its
  dtype, is modelled by `toInt16`.
- A Python exception is the `Except` error case; `PyError` names the
  exception class raised.
- A numpy boolean array of shape (L, D) produced by `noise_mask` is
  represented by the list of its D columns (each of length L), since the
  source writes it column by column; a torch tensor of shape (B, L, D) used
  in collation is represented row-major as a list of B samples, each a list
  of L time-step rows of D values.
-/

/-- Python exception classes that the embedded code can raise. -/
inductive PyError where
  | zeroDivisionError
  | attributeError
  | valueError
  deriving Repr, DecidableEq

/-- Entry access for a two-dimensional list with a default value. -/
def get2 {α : Type} (A : List (List α)) (i t : ℕ) (d : α) : α :=
  (A.getD i []).getD t d

/-- Entry access for a three-dimensional list with a default value. -/
def get3 {α : Type} (A : List (List (List α))) (i t f : ℕ) (d : α) : α :=
  ((A.getD i []).getD t []).getD f d

/-!
## MaskGenerator: `geom_noise_mask_single`

The source initialises `keep_mask = np.ones(L, dtype=bool)`, then walks the
positions `i = 0 .. L-1` writing `keep_mask[i] = state` and flipping the
state with probability `p[state]`.  State `0` means masking, `1` means
keeping; we encode the state as a `Bool` that is `true` exactly when the
Python state is `1` (keeping), so the written mask value equals the state.
-/

/-- The in-place loop of `geom_noise_mask_single`: `arr` is the boolean array
being written, `i` the current position, `n` the number of iterations left.
The draw for iteration at position `i` is `u (start + i)`. -/
def geom_loop (u : ℕ → ℚ) (pm pu : ℚ) (start : ℕ) :
    Bool → ℕ → ℕ → List Bool → List Bool
  | _, _, 0, arr => arr
  | state, i, Nat.succ n, arr =>
      let arr2 := arr.set i state
      let state2 := if u (start + i) < (if state then pu else pm)
        then !state else state
      geom_loop u pm pu start state2 (i + 1) n arr2

/-- Embedding of `geom_noise_mask_single(L, lm, masking_ratio)`.  The value
`r` is the masking ratio.  Python raises `ZeroDivisionError` on `1 / lm`
when `lm = 0` and on the quotient by `1 - r` when `r = 1`; otherwise the
initial state is keeping exactly when the first draw exceeds `r`
(`int(np.random.rand() > masking_ratio)`), and the loop runs over the `L`
positions consuming one draw each. -/
def geom_noise_mask_single (u : ℕ → ℚ) (start : ℕ) (L : ℕ) (lm r : ℚ) :
    Except PyError (List Bool) :=
  if lm = 0 then .error .zeroDivisionError
  else if (1 : ℚ) - r = 0 then .error .zeroDivisionError
  else .ok (geom_loop u (1 / lm) (1 / lm * r / (1 - r)) (start + 1)
      (decide (r < u start)) 0 L (List.replicate L true))

/-!
## Reference walk from the specification

The specification describes `single_sequence_mask` as a two-state chain with
explicit states masking / keeping; the event "with probability p" for a
uniform draw `x` is realised as `x ≤ p` for the initial draw (the complement
of `x > p`) and as `x < p` for the per-step stopping draws, each an event of
probability `p` under the uniform law.
-/

/-- Chain state of the specification walk. -/
inductive ChainState where
  | masking
  | keeping
  deriving Repr, DecidableEq

/-- Direct construction of the specification walk: visit `n` positions, write
`true` exactly when the state is keeping, then flip the state with
probability `p_mask` when masking and `p_keep` when keeping. The draw at the
first remaining position is `u k`. -/
def spec_walk (u : ℕ → ℚ) (p_mask p_keep : ℚ) :
    ChainState → ℕ → ℕ → List Bool
  | _, _, 0 => []
  | s, k, Nat.succ n =>
      let v : Bool := decide (s = ChainState.keeping)
      let s2 : ChainState :=
        match s with
        | ChainState.masking =>
            if u k < p_mask then ChainState.keeping else ChainState.masking
        | ChainState.keeping =>
            if u k < p_keep then ChainState.masking else ChainState.keeping
      v :: spec_walk u p_mask p_keep s2 (k + 1) n

/-- Modelled from the spec: the reference description of
`single_sequence_mask(L, mean_run_length, masking_ratio)` with
`p_mask = 1 / mean_run_length`,
`p_keep = p_mask * masking_ratio / (1 - masking_ratio)`, initial state
masking exactly when the first draw is at most the masking ratio. -/
def single_sequence_mask_spec (u : ℕ → ℚ) (start : ℕ) (L : ℕ) (lm r : ℚ) :
    List Bool :=
  spec_walk u (1 / lm) (1 / lm * r / (1 - r))
    (if u start ≤ r then ChainState.masking else ChainState.keeping)
    (start + 1) L

/-- The code walk written as a direct list construction (no array updates),
with the state encoded as in `geom_loop`. -/
def walk_list (u : ℕ → ℚ) (pm pu : ℚ) : Bool → ℕ → ℕ → List Bool
  | _, _, 0 => []
  | state, i, Nat.succ n =>
      let state2 := if u i < (if state then pu else pm) then !state else state
      state :: walk_list u pm pu state2 (i + 1) n

theorem geom_loop_eq_walk (u : ℕ → ℚ) (pm pu : ℚ) (start : ℕ) :
    ∀ (n : ℕ) (state : Bool) (pref : List Bool),
      geom_loop u pm pu start state pref.length n
        (pref ++ List.replicate n true)
      = pref ++ walk_list u pm pu state (start + pref.length) n := by
  intro n
  induction n with
  | zero => intro state pref; simp [geom_loop, walk_list]
  | succ n ih =>
      intro state pref
      rw [geom_loop, walk_list]
      have hset : (pref ++ List.replicate (n + 1) true).set pref.length state
          = (pref ++ [state]) ++ List.replicate n true := by
        rw [List.set_append_right _ _ (Nat.le_refl _)]
        simp [List.replicate_succ]
      rw [hset]
      have hlen : pref.length + 1 = (pref ++ [state]).length := by simp
      rw [hlen, ih _ (pref ++ [state])]
      simp [Nat.add_assoc, Nat.add_comm 1 pref.length]

theorem walk_list_eq_spec_walk (u : ℕ → ℚ) (pm pu : ℚ) :
    ∀ (n k : ℕ) (state : Bool),
      walk_list u pm pu state k n
      = spec_walk u pm pu
          (if state then ChainState.keeping else ChainState.masking) k n := by
  intro n
  induction n with
  | zero => intro k state; simp [walk_list, spec_walk]
  | succ n ih =>
      intro k state
      cases state
      · rw [show (if (false : Bool) = true then ChainState.keeping
            else ChainState.masking) = ChainState.masking from rfl,
          walk_list, spec_walk]
        by_cases h : u k < pm
        · simp [h, ih]
        · simp [h, ih]
      · rw [show (if (true : Bool) = true then ChainState.keeping
            else ChainState.masking) = ChainState.keeping from rfl,
          walk_list, spec_walk]
        by_cases h : u k < pu
        · simp [h, ih]
        · simp [h, ih]

/-- Helper equality between the source function and the specification walk,
shared by several claim theorems. -/
theorem geom_eq_spec (u : ℕ → ℚ) (start : ℕ) (L : ℕ) (lm r : ℚ)
    (hlm : lm ≠ 0) (hr : (1 : ℚ) - r ≠ 0) :
    geom_noise_mask_single u start L lm r
      = .ok (single_sequence_mask_spec u start L lm r) := by
  rw [geom_noise_mask_single, if_neg hlm, if_neg hr]
  have h0 := geom_loop_eq_walk u (1 / lm) (1 / lm * r / (1 - r)) (start + 1)
      L (decide (r < u start)) []
  simp only [List.length_nil, List.nil_append, Nat.add_zero] at h0
  rw [single_sequence_mask_spec, h0, walk_list_eq_spec_walk]
  have hstate : (if decide (r < u start) = true then ChainState.keeping
      else ChainState.masking)
      = (if u start ≤ r then ChainState.masking else ChainState.keeping) := by
    by_cases h : u start ≤ r
    · simp [h, not_lt.mpr h]
    · simp [h, lt_of_not_le h]
  rw [hstate]

/-- Length of the specification walk. -/
theorem spec_walk_length (u : ℕ → ℚ) (pm pu : ℚ) :
    ∀ (n : ℕ) (s : ChainState) (k : ℕ),
      (spec_walk u pm pu s k n).length = n := by
  intro n
  induction n with
  | zero => intro s k; rfl
  | succ n ih => intro s k; cases s <;> rw [spec_walk] <;> simp [ih]

/-- C2: the mask produced by `geom_noise_mask_single` coincides with the
reference two-state chain walk described by the specification, whenever the
derived probabilities are defined (`lm` nonzero and masking ratio not 1). -/
theorem single_sequence_mask_refines_spec_walk
    (u : ℕ → ℚ) (start L : ℕ) (lm r : ℚ)
    (hlm : lm ≠ 0) (hr : (1 : ℚ) - r ≠ 0) :
    geom_noise_mask_single u start L lm r
      = .ok (single_sequence_mask_spec u start L lm r) :=
  geom_eq_spec u start L lm r hlm hr

/-- Witness for C2 at a concrete stream, length, run length and ratio. -/
theorem single_sequence_mask_refines_spec_walk_witness :
    (3 : ℚ) ≠ 0 ∧ (1 : ℚ) - 1/4 ≠ 0 ∧
    geom_noise_mask_single (fun _ => 1/2) 0 4 3 (1/4)
      = .ok (single_sequence_mask_spec (fun _ => 1/2) 0 4 3 (1/4)) :=
  ⟨by norm_num, by norm_num,
    single_sequence_mask_refines_spec_walk (fun _ => 1/2) 0 4 3 (1/4)
      (by norm_num) (by norm_num)⟩

/-!
## MaskGenerator: `noise_mask`

The source allocates `mask = np.ones(X.shape, dtype=bool)` and overwrites
whole columns (`mask[:, m] = ...`); we represent the (L, D) array by its
list of D columns, so a column overwrite is `List.set`.  `np.random.choice`
with probabilities `(1 - r, r)` over `[True, False]` is modelled as one draw
per generated cell, the cell being `true` exactly when its draw is below
`1 - r`; a (L, D) array of such cells is filled row-major, so cell `(t, f)`
consumes draw number `t * D + f`.
-/

/-- Test `exclude_feats is not None and m in exclude_feats` from the source
(after the conversion of `exclude_feats` to a set, which we keep as a
list since only membership is used). -/
def excluded (excl : Option (List ℕ)) (m : ℕ) : Bool :=
  match excl with
  | none => false
  | some s => decide (m ∈ s)

/-- The column loop of `noise_mask` in the geometric / separate branch:
`for m in range(D)`, generating a fresh geometric mask for every column not
excluded.  `m` is the next column index, `d` the number of columns still to
visit; each generated column consumes `L + 1` draws. -/
def sep_geom_cols (u : ℕ → ℚ) (L : ℕ) (lm r : ℚ) (excl : Option (List ℕ)) :
    ℕ → ℕ → ℕ → List (List Bool) → Except PyError (List (List Bool))
  | _, _, 0, cols => .ok cols
  | start, m, Nat.succ d, cols =>
      if excluded excl m then
        sep_geom_cols u L lm r excl start (m + 1) d cols
      else
        match geom_noise_mask_single u start L lm r with
        | .error e => .error e
        | .ok c => sep_geom_cols u L lm r excl (start + (L + 1)) (m + 1) d
            (cols.set m c)

/-- Embedding of
`noise_mask(X, masking_ratio, lm, mode, distribution, exclude_feats)`;
`X` enters only through its shape `(L, D)`, `r` is the masking ratio.
The branch structure mirrors the source: anything other than the exact
string "geometric" falls to the Bernoulli branch, and within a branch
anything other than the exact string "separate" falls to the concurrent
branch. -/
def noise_mask (u : ℕ → ℚ) (start : ℕ) (L D : ℕ) (r lm : ℚ)
    (mode distribution : String) (exclude_feats : Option (List ℕ)) :
    Except PyError (List (List Bool)) :=
  if distribution = "geometric" then
    if mode = "separate" then
      sep_geom_cols u L lm r exclude_feats start 0 D
        (List.replicate D (List.replicate L true))
    else
      (geom_noise_mask_single u start L lm r).map
        (fun c => List.replicate D c)
  else
    if mode = "separate" then
      .ok ((List.range D).map fun f =>
        (List.range L).map fun t => decide (u (start + (t * D + f)) < 1 - r))
    else
      .ok (List.replicate D
        ((List.range L).map fun t => decide (u (start + t) < 1 - r)))

/-- C8 counterexample: with masking ratio 0 (outside the open interval the
claim says is enforced) and a valid mean run length, `noise_mask` raises
nothing and returns an all-keep mask: no argument validation happens. -/
theorem noise_mask_ratio_zero_no_error :
    noise_mask (fun _ => 1/2) 0 3 2 0 3 "separate" "geometric" none
      = .ok [[true, true, true], [true, true, true]] := by
  norm_num [noise_mask, sep_geom_cols, geom_noise_mask_single, geom_loop,
    excluded, List.replicate]

/-- C8 amended: the geometric generator performs no validation; it raises
ZeroDivisionError exactly when the mean run length is 0 or the masking ratio
is exactly 1, and otherwise returns a mask, whatever the masking ratio. -/
theorem geom_mask_error_iff_zero_division
    (u : ℕ → ℚ) (start L : ℕ) (lm r : ℚ) :
    geom_noise_mask_single u start L lm r = .error .zeroDivisionError
      ↔ (lm = 0 ∨ r = 1) := by
  rw [geom_noise_mask_single]
  by_cases hlm : lm = 0
  · simp [hlm]
  · by_cases hr : (1 : ℚ) - r = 0
    · have hr1 : r = 1 := by linarith
      simp [hlm, hr, hr1]
    · have hr1 : r ≠ 1 := fun h => hr (by rw [h]; ring)
      simp [hlm, hr, hr1]

/-- C10: `noise_mask` does not validate its `mode` and `distribution`
strings: any distribution other than the exact string "geometric" behaves
as the Bernoulli distribution, any mode other than the exact string
"separate" behaves as concurrent mode, and no unknown-string error exists
(with a non-geometric distribution the call always succeeds). -/
theorem noise_mask_no_string_validation
    (u : ℕ → ℚ) (start L D : ℕ) (r lm : ℚ) (mode distribution : String)
    (excl : Option (List ℕ)) :
    (distribution ≠ "geometric" →
      noise_mask u start L D r lm mode distribution excl
        = noise_mask u start L D r lm mode "bernoulli" excl) ∧
    (mode ≠ "separate" →
      noise_mask u start L D r lm mode distribution excl
        = noise_mask u start L D r lm "concurrent" distribution excl) ∧
    (distribution ≠ "geometric" →
      ∃ M, noise_mask u start L D r lm mode distribution excl = .ok M) := by
  refine ⟨fun hd => ?_, fun hm => ?_, fun hd => ?_⟩
  · rw [noise_mask, noise_mask]
    simp only [hd, if_false, if_neg (by decide :
      ¬ ("bernoulli" : String) = "geometric")]
  · rw [noise_mask, noise_mask]
    by_cases hd : distribution = "geometric"
    · simp only [hd, if_pos rfl, if_neg hm, if_neg (by decide :
        ¬ ("concurrent" : String) = "separate")]
    · simp only [hd, if_false, if_neg hm, if_neg (by decide :
        ¬ ("concurrent" : String) = "separate")]
  · rw [noise_mask]
    by_cases hm : mode = "separate" <;> simp [hd, hm]

/-- Witness for C10 at a concrete unrecognized mode and distribution. -/
theorem noise_mask_no_string_validation_witness :
    ("uniform" : String) ≠ "geometric" ∧ ("full" : String) ≠ "separate" ∧
    (noise_mask (fun _ => 1/2) 0 2 2 (1/2) 3 "full" "uniform" none
      = noise_mask (fun _ => 1/2) 0 2 2 (1/2) 3 "full" "bernoulli" none) ∧
    (noise_mask (fun _ => 1/2) 0 2 2 (1/2) 3 "full" "uniform" none
      = noise_mask (fun _ => 1/2) 0 2 2 (1/2) 3 "concurrent" "uniform" none) ∧
    (∃ M, noise_mask (fun _ => 1/2) 0 2 2 (1/2) 3 "full" "uniform" none
      = .ok M) :=
  ⟨by decide, by decide,
    (noise_mask_no_string_validation (fun _ => 1/2) 0 2 2 (1/2) 3
      "full" "uniform" none).1 (by decide),
    (noise_mask_no_string_validation (fun _ => 1/2) 0 2 2 (1/2) 3
      "full" "uniform" none).2.1 (by decide),
    (noise_mask_no_string_validation (fun _ => 1/2) 0 2 2 (1/2) 3
      "full" "uniform" none).2.2 (by decide)⟩

/-- Characterisation of the column loop of `noise_mask` (geometric,
separate): it never fails when the chain parameters are defined, leaves
excluded and out-of-range columns untouched, and writes into every visited
non-excluded column `j` the specification walk started at the draw offset
determined by the number of columns generated before `j`. -/
theorem sep_geom_cols_ok (u : ℕ → ℚ) (L : ℕ) (lm r : ℚ)
    (excl : Option (List ℕ))
    (hlm : lm ≠ 0) (hr : (1 : ℚ) - r ≠ 0) :
    ∀ (d m start : ℕ) (cols : List (List Bool)), m + d ≤ cols.length →
      ∃ cols2, sep_geom_cols u L lm r excl start m d cols = .ok cols2 ∧
        cols2.length = cols.length ∧
        ∀ j, cols2[j]? =
          if m ≤ j ∧ j < m + d ∧ excluded excl j = false then
            some (single_sequence_mask_spec u
              (start + (L + 1) *
                ((List.range' m (j - m)).countP fun x => ! excluded excl x))
              L lm r)
          else cols[j]? := by
  intro d
  induction d with
  | zero =>
      intro m start cols _
      refine ⟨cols, rfl, rfl, fun j => ?_⟩
      rw [if_neg]
      rintro ⟨h1, h2, _⟩
      omega
  | succ d ih =>
      intro m start cols hlen
      rw [sep_geom_cols]
      by_cases hex : excluded excl m = true
      · rw [if_pos hex]
        obtain ⟨cols2, heq, hlen2, hget⟩ := ih (m + 1) start cols (by omega)
        refine ⟨cols2, heq, hlen2, fun j => ?_⟩
        rw [hget j]
        by_cases hj : m + 1 ≤ j ∧ j < m + 1 + d ∧ excluded excl j = false
        · rw [if_pos hj, if_pos ⟨by omega, by omega, hj.2.2⟩]
          have hsplit : j - m = (j - (m + 1)) + 1 := by omega
          rw [hsplit, List.range'_succ, List.countP_cons]
          simp [hex]
        · rw [if_neg hj, if_neg ?_]
          rintro ⟨h1, h2, h3⟩
          by_cases hjm : j = m
          · rw [hjm, hex] at h3; exact Bool.noConfusion h3
          · exact hj ⟨by omega, by omega, h3⟩
      · rw [if_neg hex]
        rw [geom_eq_spec u start L lm r hlm hr]
        have hexf : excluded excl m = false := by
          cases h : excluded excl m
          · rfl
          · exact absurd h hex
        obtain ⟨cols2, heq, hlen2, hget⟩ := ih (m + 1) (start + (L + 1))
          (cols.set m (single_sequence_mask_spec u start L lm r))
          (by rw [List.length_set]; omega)
        refine ⟨cols2, heq, by rw [hlen2, List.length_set], fun j => ?_⟩
        rw [hget j]
        by_cases hj : m + 1 ≤ j ∧ j < m + 1 + d ∧ excluded excl j = false
        · rw [if_pos hj, if_pos ⟨by omega, by omega, hj.2.2⟩]
          have hsplit : j - m = (j - (m + 1)) + 1 := by omega
          rw [hsplit, List.range'_succ, List.countP_cons]
          simp only [hexf, Bool.not_false, eq_self_iff_true, if_true]
          rw [show start + (L + 1) *
              (List.countP (fun x => ! excluded excl x)
                (List.range' (m + 1) (j - (m + 1))) + 1)
              = start + (L + 1) + (L + 1) *
              List.countP (fun x => ! excluded excl x)
                (List.range' (m + 1) (j - (m + 1))) from by ring]
        · rw [if_neg hj]
          by_cases hjm : j = m
          · subst hjm
            rw [if_pos ⟨Nat.le_refl j, by omega, hexf⟩]
            rw [Nat.sub_self, List.range'_zero, List.countP_nil,
              Nat.mul_zero, Nat.add_zero]
            rw [List.getElem?_set_self (by omega)]
          · rw [if_neg ?_, List.getElem?_set_ne (Ne.symm hjm)]
            rintro ⟨h1, h2, h3⟩
            exact hj ⟨by omega, by omega, h3⟩

/-- C9: with geometric distribution and separate mode, every excluded
column of the returned mask is all-true and every other column is produced
by its own run of the geometric generator on a fresh segment of the random
stream (the segment determined by how many columns were generated before
it). -/
theorem noise_mask_separate_excluded_columns
    (u : ℕ → ℚ) (start L D : ℕ) (r lm : ℚ) (excl : List ℕ)
    (hlm : lm ≠ 0) (hr : (1 : ℚ) - r ≠ 0) :
    ∃ M, noise_mask u start L D r lm "separate" "geometric" (some excl)
        = .ok M ∧
      M.length = D ∧
      ∀ j, j < D →
        (j ∈ excl → M[j]? = some (List.replicate L true)) ∧
        (j ∉ excl → ∃ c, geom_noise_mask_single u
            (start + (L + 1) *
              ((List.range j).countP fun x => ! excluded (some excl) x))
            L lm r = .ok c ∧ c.length = L ∧ M[j]? = some c) := by
  obtain ⟨M, heq, hlen, hget⟩ := sep_geom_cols_ok u L lm r (some excl) hlm hr
    D 0 start (List.replicate D (List.replicate L true)) (by simp)
  refine ⟨M, ?_, by simp [hlen], fun j hj => ⟨fun hmem => ?_, fun hmem => ?_⟩⟩
  · rw [noise_mask, if_pos rfl, if_pos rfl]; exact heq
  · rw [hget j, if_neg ?_, List.getElem?_replicate, if_pos hj]
    rintro ⟨_, _, h3⟩
    rw [show excluded (some excl) j = true from by simp [excluded, hmem]] at h3
    exact Bool.noConfusion h3
  · refine ⟨single_sequence_mask_spec u
        (start + (L + 1) *
          ((List.range j).countP fun x => ! excluded (some excl) x)) L lm r,
      geom_eq_spec u _ L lm r hlm hr,
      by rw [single_sequence_mask_spec]; exact spec_walk_length u _ _ L _ _,
      ?_⟩
    rw [hget j, if_pos ⟨Nat.zero_le j, by omega, by simp [excluded, hmem]⟩]
    simp [List.range_eq_range']

/-- Witness for C9: two columns, the first excluded. -/
theorem noise_mask_separate_excluded_columns_witness :
    (3 : ℚ) ≠ 0 ∧ (1 : ℚ) - 1/2 ≠ 0 ∧
    ∃ M, noise_mask (fun _ => 1/2) 0 2 2 (1/2) 3 "separate" "geometric"
        (some [0]) = .ok M ∧
      M.length = 2 ∧
      ∀ j, j < 2 →
        (j ∈ [0] → M[j]? = some (List.replicate 2 true)) ∧
        (j ∉ [0] → ∃ c, geom_noise_mask_single (fun _ => 1/2)
            (0 + (2 + 1) *
              ((List.range j).countP fun x => ! excluded (some [0]) x))
            2 3 (1/2) = .ok c ∧ c.length = 2 ∧ M[j]? = some c) :=
  ⟨by norm_num, by norm_num,
    noise_mask_separate_excluded_columns (fun _ => 1/2) 0 2 2 (1/2) 3 [0]
      (by norm_num) (by norm_num)⟩

/-!
## PaddingMaskBuilder: `padding_mask`

The source computes `max_len = max_len or lengths.max_val()`.  A torch
tensor has no attribute `max_val`, so whenever `max_len` is falsy (`None`
or `0`) the call raises `AttributeError`; only an explicit nonzero
`max_len` returns a mask.  The mask itself is
`arange(0, max_len).repeat(batch_size, 1).lt(lengths.unsqueeze(1))`, that
is, entry `(i, t)` holds exactly when `t < lengths[i]`. -/
def padding_mask (lengths : List ℤ) (max_len : Option ℕ) :
    Except PyError (List (List Bool)) :=
  match max_len with
  | some m =>
      if m = 0 then .error .attributeError
      else .ok (lengths.map fun len =>
        (List.range m).map fun t : ℕ => decide ((t : ℤ) < len))
  | none => .error .attributeError

/-!
## BatchCollator: `collate_unsuperv`

A batch element is a `(features, mask, label)` triple; labels are integers
(they are opaque to the collator).  The per-sample padding loop
`X[i, :end, :] = features[i][:end, :]` on the zero-initialised
`(batch_size, max_len, feat_dim)` tensor is embedded as keeping the first
`end = min(length_i, max_len)` rows and appending `max_len - end` filler
rows.  `zip(*data)` on an empty list raises a `ValueError` (unpacking an
empty zip), which is the only failure before `padding_mask` is called.
-/

/-- A sample handed to the collator: features, observed-value mask, label. -/
abbrev Sample : Type := List (List ℚ) × List (List Bool) × ℤ

/-- True sequence length of every sample (`X.shape[0]`). -/
def batch_lengths (data : List Sample) : List ℕ :=
  data.map (fun s => s.1.length)

/-- The collation target length: the explicit `max_len` when given,
otherwise `max(lengths)` over the batch. -/
def batch_max_len (data : List Sample) (max_len : Option ℕ) : ℕ :=
  max_len.getD ((batch_lengths data).foldl max 0)

/-- Feature dimensionality `features[0].shape[-1]` read off the first
sample. -/
def batch_feat_dim (data : List Sample) : ℕ :=
  ((data.headD ([], [], 0)).1.headD []).length

/-- Keep the first `endi` rows of a sample and pad with `max_len - endi`
copies of the filler row: the slice assignment into a zero-initialised
padded tensor. -/
def pad_to {α : Type} (rows : List (List α)) (endi max_len : ℕ)
    (fill : List α) : List (List α) :=
  rows.take endi ++ List.replicate (max_len - endi) fill

/-- The padded feature tensor (this is `targets` before masking): for each
sample, its first `min(length_i, max_len)` rows, the rest zero rows. -/
def padded_targets (data : List Sample) (max_len : ℕ) :
    List (List (List ℚ)) :=
  data.map (fun s =>
    pad_to s.1 (min s.1.length max_len) max_len
      (List.replicate (batch_feat_dim data) 0))

/-- The padded observed-value masks before the final inversion: for each
sample, the first `min(length_i, max_len)` rows of its mask (the bound
comes from the feature length), the rest all-false rows. -/
def padded_target_masks (data : List Sample) (max_len : ℕ) :
    List (List (List Bool)) :=
  data.map (fun s =>
    pad_to s.2.1 (min s.1.length max_len) max_len
      (List.replicate (batch_feat_dim data) false))

/-- Element-wise product `X * target_masks` of a float tensor with a
boolean tensor: a true entry keeps the value (multiplies by 1), a false
entry zeroes it. -/
def mask_input (X : List (List (List ℚ))) (M : List (List (List Bool))) :
    List (List (List ℚ)) :=
  List.zipWith (fun Xi Mi => List.zipWith (fun xr mr =>
    List.zipWith (fun x b => x * (if b then (1 : ℚ) else 0)) xr mr) Xi Mi)
    X M

/-- Embedding of `compensate_masking(X, mask)`: `num_active` is the
per-position count of true mask entries over the feature axis, clamped to
at least 1; every value is rescaled by `feat_dim / num_active` where
`feat_dim = X.shape[-1]`. -/
def compensate_masking (X : List (List (List ℚ)))
    (mask : List (List (List Bool))) : List (List (List ℚ)) :=
  List.zipWith (fun Xi Mi => List.zipWith (fun xr mr =>
    xr.map (fun x => (((X.headD []).headD []).length : ℚ) * x /
      ((max (mr.countP (fun b => b)) 1 : ℕ) : ℚ))) Xi Mi) X mask

/-- The final logical inversion `target_masks = ~target_masks`. -/
def invert_masks (M : List (List (List Bool))) : List (List (List Bool)) :=
  M.map (fun Mi => Mi.map (fun row => row.map not))

/-- The pass-through labels of a batch. -/
def labels (data : List Sample) : List ℤ :=
  data.map (fun s => s.2.2)

/-- Truncation of an integer to its two's-complement int16 value. -/
def toInt16 (n : ℤ) : ℤ := (n + 32768) % 65536 - 32768

/-- The padding mask as computed inside `collate_unsuperv`: the source
builds `torch.tensor(lengths, dtype=torch.int16)`, which silently truncates
every length mod 2^16, and inside `padding_mask` the positions
`arange(0, max_len).type_as(lengths)` are truncated to int16 the same way,
so entry `(i, t)` compares the two int16 values.  Apart from this dtype it
is `padding_mask` with an explicit `max_len` (an explicit 0 is falsy and
still reaches the nonexistent `max_val`, raising AttributeError). -/
def padding_mask_int16 (lengths : List ℕ) (max_len : ℕ) :
    Except PyError (List (List Bool)) :=
  if max_len = 0 then .error .attributeError
  else .ok (lengths.map fun len : ℕ =>
    (List.range max_len).map fun t : ℕ => decide (toInt16 t < toInt16 len))

/-- Embedding of `collate_unsuperv(data, max_len, mask_compensation)`.
Returns the masked input, the unmasked targets, the inverted target mask,
the padding mask (computed on the int16 lengths tensor) and the
pass-through labels. -/
def collate_unsuperv (data : List Sample) (max_len0 : Option ℕ)
    (mask_compensation : Bool) :
    Except PyError (List (List (List ℚ)) × List (List (List ℚ)) ×
      List (List (List Bool)) × List (List Bool) × List ℤ) :=
  if data.isEmpty then .error .valueError else
  let max_len := batch_max_len data max_len0
  let X0 := padded_targets data max_len
  let tmasks := padded_target_masks data max_len
  let Xm := mask_input X0 tmasks
  let X1 := if mask_compensation then compensate_masking Xm tmasks else Xm
  match padding_mask_int16 (batch_lengths data) max_len with
  | .error e => .error e
  | .ok pmasks => .ok (X1, X0, invert_masks tmasks, pmasks, labels data)


/-- C6: with an explicit positive `max_len`, `padding_mask` returns one row
per length, and entry `(i, t)` holds exactly when `t < lengths[i]`. -/
theorem padding_mask_entries (lengths : List ℤ) (m : ℕ) (hm : 0 < m) :
    ∃ P, padding_mask lengths (some m) = .ok P ∧
      P.length = lengths.length ∧
      (∀ i, i < lengths.length → (P.getD i []).length = m) ∧
      ∀ i, i < lengths.length → ∀ t, t < m →
        get2 P i t false = decide ((t : ℤ) < lengths.getD i 0) := by
  refine ⟨_, by rw [padding_mask, if_neg (Nat.pos_iff_ne_zero.mp hm)],
    by simp, fun i hi => ?_, ?_⟩
  · have hrow0 : (List.map (fun len =>
        List.map (fun t : ℕ => decide ((t : ℤ) < len)) (List.range m))
        lengths).getD i []
        = List.map (fun t : ℕ => decide ((t : ℤ) < lengths[i]))
          (List.range m) := by
      rw [List.getD_eq_getElem?_getD, List.getElem?_map,
        List.getElem?_eq_getElem hi]
      rfl
    rw [hrow0, List.length_map, List.length_range]
  intro i hi t ht
  have hrow : (List.map (fun len =>
        List.map (fun t : ℕ => decide ((t : ℤ) < len)) (List.range m))
        lengths).getD i []
      = List.map (fun t : ℕ => decide ((t : ℤ) < lengths[i]))
        (List.range m) := by
    rw [List.getD_eq_getElem?_getD, List.getElem?_map,
      List.getElem?_eq_getElem hi]
    rfl
  rw [get2, hrow, List.getD_eq_getElem?_getD, List.getElem?_map,
    List.getElem?_range ht, List.getD_eq_getElem?_getD,
    List.getElem?_eq_getElem hi]
  rfl

/-- Witness for C6 at the specification example, lengths [3, 5, 2] and
`max_len` 5. -/
theorem padding_mask_entries_witness :
    0 < 5 ∧ ∃ P, padding_mask [3, 5, 2] (some 5) = .ok P ∧
      P.length = ([3, 5, 2] : List ℤ).length ∧
      (∀ i, i < ([3, 5, 2] : List ℤ).length → (P.getD i []).length = 5) ∧
      ∀ i, i < ([3, 5, 2] : List ℤ).length → ∀ t, t < 5 →
        get2 P i t false = decide ((t : ℤ) < ([3, 5, 2] : List ℤ).getD i 0) :=
  ⟨by norm_num, padding_mask_entries [3, 5, 2] 5 (by norm_num)⟩

/-- C7 (code bug): called without `max_len`, the source evaluates
`lengths.max_val()`; torch tensors have no attribute `max_val`, so instead
of defaulting to `max(lengths)` the call raises AttributeError for every
lengths tensor. -/
theorem padding_mask_none_attribute_error (lengths : List ℤ) :
    padding_mask lengths none = .error .attributeError := rfl

/-- Heads as positional access, for reasoning about `headD`. -/
theorem headD_eq_getD {α : Type} (l : List α) (d : α) :
    l.headD d = l.getD 0 d := by
  cases l <;> rfl

/-- Positional access through `List.map` with an in-range index. -/
theorem map_getD {α β : Type} (f : α → β) (l : List α) (i : ℕ)
    (h : i < l.length) (d : β) (d1 : α) :
    (l.map f).getD i d = f (l.getD i d1) := by
  rw [List.getD_eq_getElem?_getD, List.getElem?_map,
    List.getElem?_eq_getElem h, List.getD_eq_getElem?_getD,
    List.getElem?_eq_getElem h]
  rfl

/-- Positional access through `List.zipWith` with an in-range index. -/
theorem zipWith_getD {α β γ : Type} (f : α → β → γ) (l1 : List α)
    (l2 : List β) (i : ℕ) (h1 : i < l1.length) (h2 : i < l2.length)
    (d : γ) (d1 : α) (d2 : β) :
    (List.zipWith f l1 l2).getD i d = f (l1.getD i d1) (l2.getD i d2) := by
  rw [List.getD_eq_getElem?_getD, List.getElem?_zipWith',
    List.getElem?_eq_getElem h1, List.getElem?_eq_getElem h2,
    List.getD_eq_getElem?_getD, List.getElem?_eq_getElem h1,
    List.getD_eq_getElem?_getD, List.getElem?_eq_getElem h2]
  rfl

/-- A padded sample always has exactly `max_len` rows. -/
theorem pad_to_length {α : Type} (rows : List (List α))
    (endi max_len : ℕ) (fill : List α) (hrows : endi ≤ rows.length)
    (hml : endi ≤ max_len) :
    (pad_to rows endi max_len fill).length = max_len := by
  rw [pad_to, List.length_append, List.length_take, List.length_replicate]
  omega

/-- Row `t` of a padded sample: one of the first `endi` original rows, or
the filler row up to `max_len`. -/
theorem pad_to_getElem {α : Type} (rows : List (List α))
    (endi max_len : ℕ) (fill : List α) (hrows : endi ≤ rows.length)
    (t : ℕ) :
    (pad_to rows endi max_len fill)[t]? =
      if t < endi then rows[t]?
      else if t < max_len then some fill else none := by
  have hlt : (rows.take endi).length = endi := by
    rw [List.length_take]; omega
  rw [pad_to, List.getElem?_append, hlt, List.getElem?_replicate]
  by_cases h : t < endi
  · rw [if_pos h, if_pos h, List.getElem?_take, if_pos h]
  · rw [if_neg h, if_neg h]
    by_cases h2 : t < max_len
    · rw [if_pos (show t - endi < max_len - endi from by omega), if_pos h2]
    · rw [if_neg (show ¬ t - endi < max_len - endi from by omega), if_neg h2]

/-- Row-level version of `pad_to_getElem` with default access. -/
theorem pad_to_getD {α : Type} (rows : List (List α))
    (endi max_len : ℕ) (fill : List α) (hrows : endi ≤ rows.length)
    (t : ℕ) (ht : t < max_len) :
    (pad_to rows endi max_len fill).getD t []
      = if t < endi then rows.getD t [] else fill := by
  rw [List.getD_eq_getElem?_getD, pad_to_getElem rows endi max_len fill hrows]
  by_cases h : t < endi
  · rw [if_pos h, if_pos h, List.getD_eq_getElem?_getD,
      List.getElem?_eq_getElem (by omega)]
  · rw [if_neg h, if_neg h, if_pos ht]
    rfl

/-- Well-formed batch: nonempty, with every sample's mask as long as its
feature sequence and all rows of width `batch_feat_dim`. -/
def wf_batch (data : List Sample) : Prop :=
  data ≠ [] ∧ ∀ s ∈ data, s.2.1.length = s.1.length ∧
    (∀ row ∈ s.1, row.length = batch_feat_dim data) ∧
    (∀ row ∈ s.2.1, row.length = batch_feat_dim data)

/-- On a nonempty batch whose target length is nonzero, collation succeeds
and returns exactly the padded, masked, optionally compensated components.
This is the shared normal form for the collation claims. -/
theorem collate_unsuperv_ok (data : List Sample) (max_len0 : Option ℕ)
    (c : Bool) (hne : data ≠ []) (hml : batch_max_len data max_len0 ≠ 0) :
    collate_unsuperv data max_len0 c = .ok
      ((if c then compensate_masking
          (mask_input (padded_targets data (batch_max_len data max_len0))
            (padded_target_masks data (batch_max_len data max_len0)))
          (padded_target_masks data (batch_max_len data max_len0))
        else mask_input (padded_targets data (batch_max_len data max_len0))
          (padded_target_masks data (batch_max_len data max_len0))),
       padded_targets data (batch_max_len data max_len0),
       invert_masks (padded_target_masks data (batch_max_len data max_len0)),
       (batch_lengths data).map (fun len : ℕ =>
         (List.range (batch_max_len data max_len0)).map
           fun t : ℕ => decide (toInt16 t < toInt16 len)),
       labels data) := by
  rw [collate_unsuperv, if_neg (by simpa using hne)]
  simp only [padding_mask_int16, if_neg hml]

/-- An in-range default access is a member of the list. -/
theorem getD_mem {α : Type} (l : List α) (i : ℕ) (d : α)
    (h : i < l.length) : l.getD i d ∈ l := by
  rw [List.getD_eq_getElem?_getD, List.getElem?_eq_getElem h]
  exact List.getElem_mem h

/-- The padded targets have one entry per sample. -/
theorem padded_targets_length (data : List Sample) (m : ℕ) :
    (padded_targets data m).length = data.length := by
  rw [padded_targets, List.length_map]

/-- The padded masks have one entry per sample. -/
theorem padded_target_masks_length (data : List Sample) (m : ℕ) :
    (padded_target_masks data m).length = data.length := by
  rw [padded_target_masks, List.length_map]

/-- Sample `i` of the padded targets. -/
theorem padded_targets_getD (data : List Sample) (m i : ℕ)
    (hi : i < data.length) :
    (padded_targets data m).getD i []
      = pad_to (data.getD i ([], [], 0)).1
          (min (data.getD i ([], [], 0)).1.length m) m
          (List.replicate (batch_feat_dim data) 0) := by
  rw [padded_targets, map_getD _ data i hi [] ([], [], 0)]

/-- Sample `i` of the padded pre-inversion masks. -/
theorem padded_target_masks_getD (data : List Sample) (m i : ℕ)
    (hi : i < data.length) :
    (padded_target_masks data m).getD i []
      = pad_to (data.getD i ([], [], 0)).2.1
          (min (data.getD i ([], [], 0)).1.length m) m
          (List.replicate (batch_feat_dim data) false) := by
  rw [padded_target_masks, map_getD _ data i hi [] ([], [], 0)]

/-- C4: on every real (non-padding, non-truncated) position, the returned
target mask is the logical inversion of the observed-value mask supplied
with the sample. -/
theorem collate_target_mask_is_inversion (data : List Sample)
    (ml : Option ℕ) (c : Bool) (hwf : wf_batch data)
    (hml : batch_max_len data ml ≠ 0) :
    ∃ out, collate_unsuperv data ml c = .ok out ∧
      ∀ i t f, i < data.length →
        t < min (data.getD i ([], [], 0)).1.length (batch_max_len data ml) →
        f < batch_feat_dim data →
        get3 out.2.2.1 i t f false
          = ! (((data.getD i ([], [], 0)).2.1.getD t []).getD f false) := by
  refine ⟨_, collate_unsuperv_ok data ml c hwf.1 hml, ?_⟩
  intro i t f hi ht hf
  have hmem : data.getD i ([], [], 0) ∈ data := getD_mem data i _ hi
  obtain ⟨hmlen, hrows, hmrows⟩ := hwf.2 _ hmem
  have hendi : min (data.getD i ([], [], 0)).1.length (batch_max_len data ml)
      ≤ (data.getD i ([], [], 0)).2.1.length := by
    rw [hmlen]; exact Nat.min_le_left _ _
  have htm : t < batch_max_len data ml := lt_of_lt_of_le ht
    (Nat.min_le_right _ _)
  have htmask : t < (data.getD i ([], [], 0)).2.1.length :=
    lt_of_lt_of_le ht hendi
  show get3 (invert_masks
      (padded_target_masks data (batch_max_len data ml))) i t f false = _
  rw [get3, invert_masks,
    map_getD _ _ i (by rw [padded_target_masks_length]; exact hi) [] [],
    padded_target_masks_getD data _ i hi,
    map_getD _ _ t (by
      rw [pad_to_length _ _ _ _ hendi (Nat.min_le_right _ _)]; exact htm) [] [],
    pad_to_getD _ _ _ _ hendi t htm, if_pos ht,
    map_getD _ _ f (by
      rw [hmrows _ (getD_mem _ t [] htmask)]; exact hf) false false]

/-- Concrete one-sample batch used by collation witnesses: two time
steps, two features. -/
def inv_example_batch : List Sample :=
  [([[1, 2], [3, 4]], [[true, false], [false, true]], 3)]

/-- Witness for C4: one sample, two time steps, two features. -/
theorem collate_target_mask_is_inversion_witness :
    wf_batch inv_example_batch ∧
    batch_max_len inv_example_batch none ≠ 0 ∧
    ∃ out, collate_unsuperv inv_example_batch none false = .ok out ∧
      ∀ i t f, i < inv_example_batch.length →
        t < min ((inv_example_batch.getD i ([], [], 0)).1.length)
          (batch_max_len inv_example_batch none) →
        f < batch_feat_dim inv_example_batch →
        get3 out.2.2.1 i t f false
          = ! (((inv_example_batch.getD i ([], [], 0)).2.1.getD t
              []).getD f false) :=
  ⟨by unfold wf_batch; decide, by decide,
    collate_target_mask_is_inversion inv_example_batch none false
      (by unfold wf_batch; decide) (by decide)⟩

/-- Below 2^15, the int16 truncation of a natural number is itself. -/
theorem toInt16_coe_of_lt (n : ℕ) (h : n < 32768) : toInt16 n = n := by
  rw [toInt16]
  omega

/-- Entry `(i, t)` of the padding mask computed inside collation: the int16
comparison of the position against the true length of sample `i`. -/
theorem collate_padding_entry (data : List Sample) (m : ℕ) (i t : ℕ)
    (hi : i < data.length) (ht : t < m) :
    get2 ((batch_lengths data).map (fun len : ℕ =>
      (List.range m).map fun tt : ℕ => decide (toInt16 tt < toInt16 len)))
      i t false
      = decide (toInt16 t < toInt16 (data.getD i ([], [], 0)).1.length) := by
  have hlen1 : (batch_lengths data).length = data.length := by
    rw [batch_lengths, List.length_map]
  rw [get2, map_getD _ _ i (by rw [hlen1]; exact hi) [] 0,
    map_getD _ _ t (by rw [List.length_range]; exact ht) false 0,
    batch_lengths, map_getD _ data i hi 0 ([], [], 0)]
  have hrt : (List.range m).getD t 0 = t := by
    rw [List.getD_eq_getElem?_getD, List.getElem?_range ht]
    rfl
  rw [hrt]

/-- C1 amended: at every padding position (time step at or beyond the true
length, below the padded length) the returned post-inversion target mask is
true, not false, because the zero-filled padding rows of the pre-inversion
mask are flipped by the final inversion; and the returned padding-mask
entry is the int16 comparison of position and true length, which is false
whenever both fit in int16 (in particular whenever the batch default
`max_len` is used) but can be true at a padding position once `max_len`
exceeds 32767, the position wrapping around in the int16 cast. -/
theorem collate_padding_positions (data : List Sample) (ml : Option ℕ)
    (c : Bool) (hwf : wf_batch data) (hml : batch_max_len data ml ≠ 0) :
    ∃ out, collate_unsuperv data ml c = .ok out ∧
      ∀ i t, i < data.length →
        (data.getD i ([], [], 0)).1.length ≤ t →
        t < batch_max_len data ml →
        (∀ f, f < batch_feat_dim data →
          get3 out.2.2.1 i t f false = true) ∧
        get2 out.2.2.2.1 i t false
          = decide (toInt16 t
              < toInt16 (data.getD i ([], [], 0)).1.length) ∧
        (t < 32768 → (data.getD i ([], [], 0)).1.length < 32768 →
          get2 out.2.2.2.1 i t false = false) := by
  refine ⟨_, collate_unsuperv_ok data ml c hwf.1 hml, ?_⟩
  intro i t hi hlen ht
  have hmem : data.getD i ([], [], 0) ∈ data := getD_mem data i _ hi
  obtain ⟨hmlen, hrows, hmrows⟩ := hwf.2 _ hmem
  have hendi : min (data.getD i ([], [], 0)).1.length (batch_max_len data ml)
      ≤ (data.getD i ([], [], 0)).2.1.length := by
    rw [hmlen]; exact Nat.min_le_left _ _
  refine ⟨fun f hf => ?inv, ?pad, fun ht16 hlen16 => ?safe⟩
  case pad =>
    show get2 ((batch_lengths data).map (fun len : ℕ =>
        (List.range (batch_max_len data ml)).map
          fun tt : ℕ => decide (toInt16 tt < toInt16 len))) i t false = _
    exact collate_padding_entry data _ i t hi ht
  case safe =>
    show get2 ((batch_lengths data).map (fun len : ℕ =>
        (List.range (batch_max_len data ml)).map
          fun tt : ℕ => decide (toInt16 tt < toInt16 len))) i t false
      = false
    rw [collate_padding_entry data _ i t hi ht, toInt16_coe_of_lt t ht16,
      toInt16_coe_of_lt _ hlen16]
    have hcast : ((data.getD i ([], [], 0)).1.length : ℤ) ≤ (t : ℤ) := by
      exact_mod_cast hlen
    exact decide_eq_false_iff_not.mpr (not_lt.mpr hcast)
  case inv =>
    show get3 (invert_masks
        (padded_target_masks data (batch_max_len data ml))) i t f false = true
    rw [get3, invert_masks,
      map_getD _ _ i (by rw [padded_target_masks_length]; exact hi) [] [],
      padded_target_masks_getD data _ i hi,
      map_getD _ _ t (by
        rw [pad_to_length _ _ _ _ hendi (Nat.min_le_right _ _)]; exact ht)
        [] [],
      pad_to_getD _ _ _ _ hendi t ht,
      if_neg (show ¬ t < min (data.getD i ([], [], 0)).1.length
        (batch_max_len data ml) from by omega),
      map_getD _ _ f (by rw [List.length_replicate]; exact hf) false false]
    have : (List.replicate (batch_feat_dim data) false).getD f false
        = false := by
      rw [List.getD_eq_getElem?_getD, List.getElem?_replicate]
      split <;> rfl
    rw [this]
    rfl

/-- Concrete two-sample batch with true lengths 1 and 2, used to exhibit
what collation returns at a padding position. -/
def pad_example_batch : List Sample :=
  [([[1]], [[true]], 0), ([[2], [3]], [[true], [true]], 0)]

/-- Concrete one-sample batch of true length 1, for the int16 wrap-around
display. -/
def wrap_example_batch : List Sample := [([[1]], [[true]], 0)]

/-- C1 counterexample, both halves.  Target-mask half: time step 1 of
sample 0 in the first returned batch is a padding position (true length 1,
padded length 2) and the returned post-inversion target mask is true
there, where the claim requires false.  Padding-mask half: in the second
returned batch (`max_len` 32769, true length 1), the padding-mask entry at
padding position 32768 is true rather than false, because the position
cast to int16 wraps to -32768. -/
theorem collate_padding_target_mask_true :
    batch_lengths pad_example_batch = [1, 2] ∧
    batch_max_len pad_example_batch none = 2 ∧
    (∃ out, collate_unsuperv pad_example_batch none false = .ok out ∧
      get3 out.2.2.1 0 1 0 false = true) ∧
    (∃ out, collate_unsuperv wrap_example_batch (some 32769) false
        = .ok out ∧
      get2 out.2.2.2.1 0 32768 false = true) := by
  refine ⟨by decide, by decide,
    ⟨_, collate_unsuperv_ok pad_example_batch none false (by decide)
      (by decide), by decide⟩,
    ⟨_, collate_unsuperv_ok wrap_example_batch (some 32769) false
      (by decide) (by decide), ?_⟩⟩
  show get2 ((batch_lengths wrap_example_batch).map (fun len : ℕ =>
      (List.range 32769).map
        fun tt : ℕ => decide (toInt16 tt < toInt16 len))) 0 32768 false
    = true
  rw [collate_padding_entry wrap_example_batch 32769 0 32768 (by decide)
    (by decide)]
  decide

/-- Witness for the amended C1 at the concrete two-sample batch. -/
theorem collate_padding_positions_witness :
    wf_batch pad_example_batch ∧
    batch_max_len pad_example_batch none ≠ 0 ∧
    ∃ out, collate_unsuperv pad_example_batch none false = .ok out ∧
      ∀ i t, i < pad_example_batch.length →
        (pad_example_batch.getD i ([], [], 0)).1.length ≤ t →
        t < batch_max_len pad_example_batch none →
        (∀ f, f < batch_feat_dim pad_example_batch →
          get3 out.2.2.1 i t f false = true) ∧
        get2 out.2.2.2.1 i t false
          = decide (toInt16 t
              < toInt16 (pad_example_batch.getD i ([], [], 0)).1.length) ∧
        (t < 32768 →
          (pad_example_batch.getD i ([], [], 0)).1.length < 32768 →
          get2 out.2.2.2.1 i t false = false) :=
  ⟨by unfold wf_batch; decide, by decide,
    collate_padding_positions pad_example_batch none false
      (by unfold wf_batch; decide) (by decide)⟩

/-- Entry of the element-wise mask product: value times boolean factor. -/
theorem mask_input_get3 (X : List (List (List ℚ)))
    (M : List (List (List Bool))) (i t f : ℕ)
    (hiX : i < X.length) (hiM : i < M.length)
    (htX : t < (X.getD i []).length) (htM : t < (M.getD i []).length)
    (hfX : f < ((X.getD i []).getD t []).length)
    (hfM : f < ((M.getD i []).getD t []).length) :
    get3 (mask_input X M) i t f 0
      = get3 X i t f 0 * (if get3 M i t f false then 1 else 0) := by
  rw [get3, mask_input, zipWith_getD _ X M i hiX hiM [] [] [],
    zipWith_getD _ _ _ t htX htM [] [] [],
    zipWith_getD _ _ _ f hfX hfM 0 0 false, get3, get3]

/-- Every row of a padded target sample has width `batch_feat_dim`. -/
theorem padded_targets_row_width (data : List Sample) (m i t : ℕ)
    (hwf : wf_batch data) (hi : i < data.length) (ht : t < m) :
    (((padded_targets data m).getD i []).getD t []).length
      = batch_feat_dim data := by
  obtain ⟨_, hrows, _⟩ := hwf.2 _ (getD_mem data i ([], [], 0) hi)
  rw [padded_targets_getD data m i hi,
    pad_to_getD _ _ _ _ (Nat.min_le_left _ _) t ht]
  by_cases h : t < min (data.getD i ([], [], 0)).1.length m
  · rw [if_pos h]
    exact hrows _ (getD_mem _ t [] (by omega))
  · rw [if_neg h, List.length_replicate]

/-- Every row of a padded mask sample has width `batch_feat_dim`. -/
theorem padded_target_masks_row_width (data : List Sample) (m i t : ℕ)
    (hwf : wf_batch data) (hi : i < data.length) (ht : t < m) :
    (((padded_target_masks data m).getD i []).getD t []).length
      = batch_feat_dim data := by
  obtain ⟨hmlen, _, hmrows⟩ := hwf.2 _ (getD_mem data i ([], [], 0) hi)
  have hendi : min (data.getD i ([], [], 0)).1.length m
      ≤ (data.getD i ([], [], 0)).2.1.length := by
    rw [hmlen]; exact Nat.min_le_left _ _
  rw [padded_target_masks_getD data m i hi, pad_to_getD _ _ _ _ hendi t ht]
  by_cases h : t < min (data.getD i ([], [], 0)).1.length m
  · rw [if_pos h]
    exact hmrows _ (getD_mem _ t [] (by omega))
  · rw [if_neg h, List.length_replicate]

/-- The padded targets and masks of a sample both span `max_len` rows. -/
theorem padded_rows_length (data : List Sample) (m i : ℕ)
    (hwf : wf_batch data) (hi : i < data.length) :
    ((padded_targets data m).getD i []).length = m ∧
    ((padded_target_masks data m).getD i []).length = m := by
  obtain ⟨hmlen, _, _⟩ := hwf.2 _ (getD_mem data i ([], [], 0) hi)
  constructor
  · rw [padded_targets_getD data m i hi,
      pad_to_length _ _ _ _ (Nat.min_le_left _ _) (Nat.min_le_right _ _)]
  · rw [padded_target_masks_getD data m i hi,
      pad_to_length _ _ _ _ (by rw [hmlen]; exact Nat.min_le_left _ _)
        (Nat.min_le_right _ _)]

/-- Default access into a replicated list. -/
theorem getD_replicate {α : Type} (n i : ℕ) (a d : α) :
    (List.replicate n a).getD i d = if i < n then a else d := by
  rw [List.getD_eq_getElem?_getD, List.getElem?_replicate]
  by_cases h : i < n <;> simp [h]

/-- C5 amended: with an explicit `max_len`, sample `i` contributes exactly
its first `min(L_i, max_len)` rows to the targets, the pre-inversion mask
and the masked input; all later rows are zero rows (targets and input) and
all-false rows (pre-inversion mask); and a sample longer than `max_len` is
truncated, its padding-mask row holding the int16 comparison of position
and true length: all-true when the true length fits in int16, but not in
general, since a true length of 32768 or more wraps in the int16 lengths
tensor. -/
theorem collate_explicit_max_len_truncates (data : List Sample) (mx : ℕ)
    (hwf : wf_batch data) (hmx : mx ≠ 0) :
    ∃ out, collate_unsuperv data (some mx) false = .ok out ∧
      ∀ i, i < data.length →
        (∀ t, t < min (data.getD i ([], [], 0)).1.length mx →
          (out.2.1.getD i []).getD t []
            = (data.getD i ([], [], 0)).1.getD t [] ∧
          ((padded_target_masks data mx).getD i []).getD t []
            = (data.getD i ([], [], 0)).2.1.getD t [] ∧
          ∀ f, f < batch_feat_dim data →
            get3 out.1 i t f 0
              = (((data.getD i ([], [], 0)).1.getD t []).getD f 0) *
                (if ((data.getD i ([], [], 0)).2.1.getD t []).getD f false
                  then 1 else 0)) ∧
        (∀ t, min (data.getD i ([], [], 0)).1.length mx ≤ t → t < mx →
          (out.2.1.getD i []).getD t []
            = List.replicate (batch_feat_dim data) 0 ∧
          ((padded_target_masks data mx).getD i []).getD t []
            = List.replicate (batch_feat_dim data) false ∧
          ∀ f, f < batch_feat_dim data → get3 out.1 i t f 0 = 0) ∧
        (mx < (data.getD i ([], [], 0)).1.length →
          ∀ t, t < mx →
            get2 out.2.2.2.1 i t false
              = decide (toInt16 t
                  < toInt16 (data.getD i ([], [], 0)).1.length) ∧
            ((data.getD i ([], [], 0)).1.length < 32768 →
              get2 out.2.2.2.1 i t false = true)) := by
  refine ⟨_, collate_unsuperv_ok data (some mx) false hwf.1 hmx, ?_⟩
  intro i hi
  have hmem : data.getD i ([], [], 0) ∈ data := getD_mem data i _ hi
  obtain ⟨hmlen, hrows, hmrows⟩ := hwf.2 _ hmem
  have hendiX : min (data.getD i ([], [], 0)).1.length mx
      ≤ (data.getD i ([], [], 0)).1.length := Nat.min_le_left _ _
  have hendiM : min (data.getD i ([], [], 0)).1.length mx
      ≤ (data.getD i ([], [], 0)).2.1.length := by
    rw [hmlen]; exact Nat.min_le_left _ _
  have hXrow : ∀ t, t < mx → ((padded_targets data mx).getD i []).getD t []
      = if t < min (data.getD i ([], [], 0)).1.length mx
        then (data.getD i ([], [], 0)).1.getD t []
        else List.replicate (batch_feat_dim data) 0 := by
    intro t ht
    rw [padded_targets_getD data mx i hi, pad_to_getD _ _ _ _ hendiX t ht]
  have hMrow : ∀ t, t < mx →
      ((padded_target_masks data mx).getD i []).getD t []
      = if t < min (data.getD i ([], [], 0)).1.length mx
        then (data.getD i ([], [], 0)).2.1.getD t []
        else List.replicate (batch_feat_dim data) false := by
    intro t ht
    rw [padded_target_masks_getD data mx i hi,
      pad_to_getD _ _ _ _ hendiM t ht]
  have hbounds : ∀ t f, t < mx → f < batch_feat_dim data →
      get3 (mask_input (padded_targets data mx)
          (padded_target_masks data mx)) i t f 0
        = get3 (padded_targets data mx) i t f 0 *
          (if get3 (padded_target_masks data mx) i t f false
            then 1 else 0) := by
    intro t f ht hf
    exact mask_input_get3 _ _ i t f
      (by rw [padded_targets_length]; exact hi)
      (by rw [padded_target_masks_length]; exact hi)
      (by rw [(padded_rows_length data mx i hwf hi).1]; exact ht)
      (by rw [(padded_rows_length data mx i hwf hi).2]; exact ht)
      (by rw [padded_targets_row_width data mx i t hwf hi ht]; exact hf)
      (by rw [padded_target_masks_row_width data mx i t hwf hi ht]; exact hf)
  refine ⟨fun t ht => ⟨?_, ?_, fun f hf => ?_⟩,
    fun t htl ht => ⟨?_, ?_, fun f hf => ?_⟩, fun htr t ht => ?_⟩
  · show ((padded_targets data mx).getD i []).getD t [] = _
    rw [hXrow t (lt_of_lt_of_le ht (Nat.min_le_right _ _)), if_pos ht]
  · rw [hMrow t (lt_of_lt_of_le ht (Nat.min_le_right _ _)), if_pos ht]
  · show get3 (mask_input (padded_targets data mx)
        (padded_target_masks data mx)) i t f 0 = _
    have ht' : t < mx := lt_of_lt_of_le ht (Nat.min_le_right _ _)
    rw [hbounds t f ht' hf, get3, get3, hXrow t ht', hMrow t ht',
      if_pos ht, if_pos ht]
  · show ((padded_targets data mx).getD i []).getD t [] = _
    rw [hXrow t ht, if_neg (by omega)]
  · rw [hMrow t ht, if_neg (by omega)]
  · show get3 (mask_input (padded_targets data mx)
        (padded_target_masks data mx)) i t f 0 = 0
    rw [hbounds t f ht hf, get3, hXrow t ht, if_neg (by omega),
      getD_replicate, if_pos hf, zero_mul]
  · constructor
    · show get2 ((batch_lengths data).map (fun len : ℕ =>
          (List.range mx).map
            fun tt : ℕ => decide (toInt16 tt < toInt16 len))) i t false = _
      exact collate_padding_entry data mx i t hi ht
    · intro hlen16
      show get2 ((batch_lengths data).map (fun len : ℕ =>
          (List.range mx).map
            fun tt : ℕ => decide (toInt16 tt < toInt16 len))) i t false
        = true
      rw [collate_padding_entry data mx i t hi ht,
        toInt16_coe_of_lt t (by omega), toInt16_coe_of_lt _ hlen16]
      simp only [decide_eq_true_eq]
      exact_mod_cast lt_trans ht htr

/-- Entry of the compensated tensor: the feature width of `X` times the
value, divided by the clamped per-position count of active mask entries. -/
theorem compensate_masking_get3 (X : List (List (List ℚ)))
    (M : List (List (List Bool))) (i t f : ℕ)
    (hiX : i < X.length) (hiM : i < M.length)
    (htX : t < (X.getD i []).length) (htM : t < (M.getD i []).length)
    (hfX : f < ((X.getD i []).getD t []).length) :
    get3 (compensate_masking X M) i t f 0
      = (((X.headD []).headD []).length : ℚ) * get3 X i t f 0 /
        (((max (((M.getD i []).getD t []).countP (fun b => b)) 1) : ℕ) : ℚ)
      := by
  rw [get3, compensate_masking, zipWith_getD _ X M i hiX hiM [] [] [],
    zipWith_getD _ _ _ t htX htM [] [] [],
    map_getD _ _ f hfX 0 0, get3]

/-- The head row of the masked input has the batch feature width. -/
theorem mask_input_head_width (data : List Sample) (m : ℕ)
    (hwf : wf_batch data) (hm : m ≠ 0) :
    (((mask_input (padded_targets data m)
        (padded_target_masks data m)).headD []).headD []).length
      = batch_feat_dim data := by
  have h0 : 0 < data.length := by
    cases data
    · exact absurd rfl hwf.1
    · simp
  rw [headD_eq_getD, headD_eq_getD, mask_input,
    zipWith_getD _ _ _ 0 (by rw [padded_targets_length]; exact h0)
      (by rw [padded_target_masks_length]; exact h0) [] [] [],
    zipWith_getD _ _ _ 0
      (by rw [(padded_rows_length data m 0 hwf h0).1]; omega)
      (by rw [(padded_rows_length data m 0 hwf h0).2]; omega) [] [] [],
    List.length_zipWith,
    padded_targets_row_width data m 0 0 hwf h0 (by omega),
    padded_target_masks_row_width data m 0 0 hwf h0 (by omega),
    Nat.min_self]

/-- C3: with compensation on, every returned input entry is the
pre-compensation masked value rescaled by `feat_dim / max(k, 1)`, where `k`
counts the true entries of the pre-inversion mask across the features of
that position; a fully masked position (k = 0) stays zero, and the call
succeeds, so no division error is ever raised. -/
theorem collate_compensation_rescales (data : List Sample) (ml : Option ℕ)
    (hwf : wf_batch data) (hml : batch_max_len data ml ≠ 0) :
    ∃ out, collate_unsuperv data ml true = .ok out ∧
      ∀ i t f, i < data.length → t < batch_max_len data ml →
        f < batch_feat_dim data →
        (get3 out.1 i t f 0
          = (batch_feat_dim data : ℚ) *
            get3 (mask_input (padded_targets data (batch_max_len data ml))
              (padded_target_masks data (batch_max_len data ml))) i t f 0 /
            (((max ((((padded_target_masks data
              (batch_max_len data ml)).getD i []).getD t []).countP
              (fun b => b)) 1) : ℕ) : ℚ)) ∧
        (((((padded_target_masks data (batch_max_len data ml)).getD
            i []).getD t []).countP (fun b => b) = 0) →
          get3 out.1 i t f 0 = 0) := by
  refine ⟨_, collate_unsuperv_ok data ml true hwf.1 hml, ?_⟩
  intro i t f hi ht hf
  set m := batch_max_len data ml with hm
  have hiXm : i < (mask_input (padded_targets data m)
      (padded_target_masks data m)).length := by
    rw [mask_input, List.length_zipWith, padded_targets_length,
      padded_target_masks_length, Nat.min_self]
    exact hi
  have hXmi : (mask_input (padded_targets data m)
      (padded_target_masks data m)).getD i []
      = List.zipWith (fun xr mr => List.zipWith
          (fun x b => x * (if b then (1 : ℚ) else 0)) xr mr)
        ((padded_targets data m).getD i [])
        ((padded_target_masks data m).getD i []) := by
    rw [mask_input, zipWith_getD _ _ _ i
      (by rw [padded_targets_length]; exact hi)
      (by rw [padded_target_masks_length]; exact hi) [] [] []]
  have htXm : t < ((mask_input (padded_targets data m)
      (padded_target_masks data m)).getD i []).length := by
    rw [hXmi, List.length_zipWith, (padded_rows_length data m i hwf hi).1,
      (padded_rows_length data m i hwf hi).2, Nat.min_self]
    exact ht
  have hfXm : f < (((mask_input (padded_targets data m)
      (padded_target_masks data m)).getD i []).getD t []).length := by
    rw [hXmi, zipWith_getD _ _ _ t
      (by rw [(padded_rows_length data m i hwf hi).1]; exact ht)
      (by rw [(padded_rows_length data m i hwf hi).2]; exact ht) [] [] [],
      List.length_zipWith, padded_targets_row_width data m i t hwf hi ht,
      padded_target_masks_row_width data m i t hwf hi ht, Nat.min_self]
    exact hf
  have hcomp := compensate_masking_get3
    (mask_input (padded_targets data m) (padded_target_masks data m))
    (padded_target_masks data m) i t f hiXm
    (by rw [padded_target_masks_length]; exact hi) htXm
    (by rw [(padded_rows_length data m i hwf hi).2]; exact ht) hfXm
  rw [mask_input_head_width data m hwf hml] at hcomp
  constructor
  · show get3 (compensate_masking (mask_input (padded_targets data m)
        (padded_target_masks data m)) (padded_target_masks data m))
        i t f 0 = _
    exact hcomp
  · intro hk
    show get3 (compensate_masking (mask_input (padded_targets data m)
        (padded_target_masks data m)) (padded_target_masks data m))
        i t f 0 = 0
    rw [hcomp, mask_input_get3 _ _ i t f
      (by rw [padded_targets_length]; exact hi)
      (by rw [padded_target_masks_length]; exact hi)
      (by rw [(padded_rows_length data m i hwf hi).1]; exact ht)
      (by rw [(padded_rows_length data m i hwf hi).2]; exact ht)
      (by rw [padded_targets_row_width data m i t hwf hi ht]; exact hf)
      (by rw [padded_target_masks_row_width data m i t hwf hi ht]; exact hf)]
    have hfalse : get3 (padded_target_masks data m) i t f false = false := by
      have hmem2 := getD_mem
        (((padded_target_masks data m).getD i []).getD t []) f false
        (by rw [padded_target_masks_row_width data m i t hwf hi ht]; exact hf)
      have hx := List.countP_eq_zero.mp hk _ hmem2
      rw [get3]
      simpa using hx
    rw [hfalse]
    simp

/-- Concrete one-sample batch of true length 3, for the truncation
witness. -/
def trunc_example_batch : List Sample :=
  [([[1], [2], [3]], [[true], [false], [true]], 1)]

/-- Witness for C5: a length-3 sample collated with `max_len` 2. -/
theorem collate_explicit_max_len_truncates_witness :
    wf_batch trunc_example_batch ∧ (2 : ℕ) ≠ 0 ∧
    ∃ out, collate_unsuperv trunc_example_batch (some 2) false = .ok out ∧
      ∀ i, i < trunc_example_batch.length →
        (∀ t, t < min (trunc_example_batch.getD i ([], [], 0)).1.length 2 →
          (out.2.1.getD i []).getD t []
            = (trunc_example_batch.getD i ([], [], 0)).1.getD t [] ∧
          ((padded_target_masks trunc_example_batch 2).getD i []).getD t []
            = (trunc_example_batch.getD i ([], [], 0)).2.1.getD t [] ∧
          ∀ f, f < batch_feat_dim trunc_example_batch →
            get3 out.1 i t f 0
              = (((trunc_example_batch.getD i ([], [], 0)).1.getD
                  t []).getD f 0) *
                (if ((trunc_example_batch.getD i ([], [], 0)).2.1.getD
                    t []).getD f false
                  then 1 else 0)) ∧
        (∀ t, min (trunc_example_batch.getD i ([], [], 0)).1.length 2 ≤ t →
          t < 2 →
          (out.2.1.getD i []).getD t []
            = List.replicate (batch_feat_dim trunc_example_batch) 0 ∧
          ((padded_target_masks trunc_example_batch 2).getD i []).getD t []
            = List.replicate (batch_feat_dim trunc_example_batch) false ∧
          ∀ f, f < batch_feat_dim trunc_example_batch →
            get3 out.1 i t f 0 = 0) ∧
        (2 < (trunc_example_batch.getD i ([], [], 0)).1.length →
          ∀ t, t < 2 →
            get2 out.2.2.2.1 i t false
              = decide (toInt16 t
                  < toInt16 (trunc_example_batch.getD i ([], [], 0)).1.length)
              ∧
            ((trunc_example_batch.getD i ([], [], 0)).1.length < 32768 →
              get2 out.2.2.2.1 i t false = true)) :=
  ⟨by unfold wf_batch; decide, by decide,
    collate_explicit_max_len_truncates trunc_example_batch 2
      (by unfold wf_batch; decide) (by decide)⟩

/-- Concrete one-sample batch of true length 40000, past the int16 range. -/
def long_example_batch : List Sample :=
  [(List.replicate 40000 [(1 : ℚ)], List.replicate 40000 [true], 0)]

/-- C5 counterexample: a sample of true length 40000 collated with
`max_len` 6 is truncated, but its padding-mask row is not all-true: the
lengths tensor is built with dtype int16, 40000 wraps to -25536, and
already the entry at time step 0 is false. -/
theorem collate_truncated_padding_row_not_all_true :
    (6 : ℕ) < (long_example_batch.getD 0 ([], [], 0)).1.length ∧
    ∃ out, collate_unsuperv long_example_batch (some 6) false = .ok out ∧
      get2 out.2.2.2.1 0 0 false = false := by
  have hlen : (long_example_batch.getD 0 ([], [], 0)).1.length = 40000 := by
    show (List.replicate 40000 [(1 : ℚ)]).length = 40000
    rw [List.length_replicate]
  refine ⟨by rw [hlen]; norm_num, _,
    collate_unsuperv_ok long_example_batch (some 6) false (by decide)
      (by decide), ?_⟩
  show get2 ((batch_lengths long_example_batch).map (fun len : ℕ =>
      (List.range 6).map
        fun tt : ℕ => decide (toInt16 tt < toInt16 len))) 0 0 false = false
  rw [collate_padding_entry long_example_batch 6 0 0 (by decide)
    (by norm_num), hlen]
  decide

/-- Witness for C3 at the concrete two-sample batch. -/
theorem collate_compensation_rescales_witness :
    wf_batch pad_example_batch ∧
    batch_max_len pad_example_batch none ≠ 0 ∧
    ∃ out, collate_unsuperv pad_example_batch none true = .ok out ∧
      ∀ i t f, i < pad_example_batch.length →
        t < batch_max_len pad_example_batch none →
        f < batch_feat_dim pad_example_batch →
        (get3 out.1 i t f 0
          = (batch_feat_dim pad_example_batch : ℚ) *
            get3 (mask_input (padded_targets pad_example_batch
                (batch_max_len pad_example_batch none))
              (padded_target_masks pad_example_batch
                (batch_max_len pad_example_batch none))) i t f 0 /
            (((max ((((padded_target_masks pad_example_batch
              (batch_max_len pad_example_batch none)).getD i []).getD
              t []).countP (fun b => b)) 1) : ℕ) : ℚ)) ∧
        (((((padded_target_masks pad_example_batch
            (batch_max_len pad_example_batch none)).getD i []).getD
            t []).countP (fun b => b) = 0) →
          get3 out.1 i t f 0 = 0) :=
  ⟨by unfold wf_batch; decide, by decide,
    collate_compensation_rescales pad_example_batch none
      (by unfold wf_batch; decide) (by decide)⟩
